import Mathlib

/-!
Verification of the miniCRM request-distribution core.

The definitions below are a shallow embedding of the Python sources:
`app/models/models.py` (data model, `Operator.get_current_load`),
`app/services/distribution_service.py` (`DistributionService`),
`app/api/requests.py` (`create_request`, `update_request_status`) and
`app/api/sources.py` (`configure_source_weights`).

The database is modelled as an explicit record of row lists; SQLAlchemy
sessions become explicit state passing, and a raised `HTTPException`
or `ValueError` becomes the `Except.error` branch.  The draw of
`random.choices` is made explicit as an integer parameter `r`: given the
underlying draw, `random.choices(population, weights, k=1)` picks via
`bisect` over the cumulative weights, clamped to the last index, which is
`pickFrom` below.
-/

set_option autoImplicit false

namespace MiniCRM

/-- Row of the `operators` table (`models.py`, class `Operator`).
`created_at` carries no program logic and is omitted. -/
structure Operator where
  id : Nat
  name : String
  is_active : Bool
  max_load : Int
  deriving Repr, DecidableEq

/-- Row of the `sources` table (`models.py`, class `Source`). -/
structure Source where
  id : Nat
  name : String
  deriving Repr, DecidableEq

/-- Row of the `leads` table (`models.py`, class `Lead`). -/
structure Lead where
  id : Nat
  external_id : String
  deriving Repr, DecidableEq

/-- Row of the `operator_source_weights` table (`models.py`,
class `OperatorSourceWeight`).  Note the table has only the `id` primary
key: no uniqueness constraint on `(source_id, operator_id)`. -/
structure OperatorSourceWeight where
  id : Nat
  operator_id : Nat
  source_id : Nat
  weight : Int
  deriving Repr, DecidableEq

/-- Row of the `requests` table (`models.py`, class `Request`). -/
structure Request where
  id : Nat
  lead_id : Nat
  source_id : Nat
  operator_id : Option Nat
  status : String
  message : Option String
  deriving Repr, DecidableEq

/-- The committed database state: one list of rows per table. -/
structure DB where
  operators : List Operator
  sources : List Source
  leads : List Lead
  weights : List OperatorSourceWeight
  requests : List Request
  deriving Repr, DecidableEq

/-- Payload of `schemas.RequestCreate` (fields that drive control flow). -/
structure RequestCreate where
  lead_external_id : String
  source_id : Nat
  message : Option String
  deriving Repr, DecidableEq

/-- Payload of `schemas.OperatorSourceWeightCreate`. -/
structure OperatorSourceWeightCreate where
  operator_id : Nat
  weight : Int
  deriving Repr, DecidableEq

/-- Result record of `DistributionService.get_operator_statistics`. -/
structure OperatorStats where
  operator_id : Nat
  operator_name : String
  total_requests : Nat
  current_load : Int
  max_load : Int
  deriving Repr, DecidableEq

/-- `Operator.get_current_load` (`models.py`): count of requests with this
operator and status `"active"`. -/
def Operator.get_current_load (op : Operator) (db : DB) : Int :=
  ((db.requests.filter
    (fun r => r.operator_id == some op.id && r.status == "active")).length : Int)

/-- The loop body of `DistributionService.get_available_operators`:
for each weight row, look the operator up, skip it when inactive or when
`current_load >= max_load`, otherwise emit `(operator, weight)`. -/
def availableFrom (db : DB) : List OperatorSourceWeight → List (Operator × Int)
  | [] => []
  | w :: rest =>
    match db.operators.find? (fun o => o.id == w.operator_id) with
    | none => availableFrom db rest
    | some op =>
      if !op.is_active then availableFrom db rest
      else if op.max_load ≤ op.get_current_load db then availableFrom db rest
      else (op, w.weight) :: availableFrom db rest

/-- `DistributionService.get_available_operators`: weight rows of the
source, filtered by the loop above. -/
def getAvailableOperators (db : DB) (source_id : Nat) : List (Operator × Int) :=
  availableFrom db (db.weights.filter (fun w => w.source_id == source_id))

/-- Sum of a list of integers (the `total` of `random.choices`). -/
def intSum (l : List Int) : Int := l.foldr (fun a b => a + b) 0

/-- Sum of the first `n` weights (a prefix of the cumulative sums that
`random.choices` bisects over). -/
def sumTake (ws : List Int) (n : Nat) : Int := intSum (ws.take n)

/-- The selection kernel of `random.choices(operators, weights, k=1)` for
a given draw `r`: walk the candidates, subtracting weights, and return
the first candidate whose weight exceeds what remains of `r`; the last
candidate absorbs everything else (Python bisects with `hi = n - 1`,
clamping the index to the last element). -/
def pickFrom : Operator × Int → List (Operator × Int) → Int → Operator
  | c, [], _ => c.1
  | c, d :: rest, r => if r < c.2 then c.1 else pickFrom d rest (r - c.2)

/-- Index form of `pickFrom`, for counting which draws select which
candidate. -/
def pickIdx : List Int → Int → Nat
  | [], _ => 0
  | [_], _ => 0
  | w :: v :: rest, r => if r < w then 0 else pickIdx (v :: rest) (r - w) + 1

/-- `DistributionService.select_operator_weighted` with the draw explicit.
Empty input returns `None` (line 66-67 of the service).  Otherwise it
defers to `random.choices`, which raises `ValueError` when the total of
the weights is not positive, and else picks by the draw. -/
def selectOperatorWeighted (cands : List (Operator × Int)) (r : Int) :
    Except String (Option Operator) :=
  match cands with
  | [] => Except.ok none
  | c :: cs =>
    if intSum ((c :: cs).map (fun p => p.2)) ≤ 0 then
      Except.error "Total of weights must be greater than zero"
    else Except.ok (some (pickFrom c cs r))

/-- `DistributionService.assign_operator_to_request`: filter, then return
`None` when nothing is available, else select by weight. -/
def assignOperatorToRequest (db : DB) (source_id : Nat) (r : Int) :
    Except String (Option Operator) :=
  match getAvailableOperators db source_id with
  | [] => Except.ok none
  | c :: cs => selectOperatorWeighted (c :: cs) r

/-- `DistributionService.get_operator_statistics`: historical request
count for the `(operator, source)` pair plus the operator's load; a
missing operator yields `"Unknown"` and zeros. -/
def getOperatorStatistics (db : DB) (operator_id source_id : Nat) : OperatorStats :=
  let total :=
    (db.requests.filter
      (fun r => r.operator_id == some operator_id && r.source_id == source_id)).length
  match db.operators.find? (fun o => o.id == operator_id) with
  | some op =>
    { operator_id := operator_id, operator_name := op.name,
      total_requests := total, current_load := op.get_current_load db,
      max_load := op.max_load }
  | none =>
    { operator_id := operator_id, operator_name := "Unknown",
      total_requests := total, current_load := 0, max_load := 0 }

/-- Fresh primary key for a new row: one past the largest id in use. -/
def freshId (ids : List Nat) : Nat := ids.foldr max 0 + 1

/-- The find-or-create-lead prelude of `create_request`
(`api/requests.py` lines 38-50). -/
def findOrCreateLead (db : DB) (ext : String) : DB × Lead :=
  match db.leads.find? (fun l => l.external_id == ext) with
  | some l => (db, l)
  | none =>
    let l : Lead := { id := freshId (db.leads.map (fun x => x.id)), external_id := ext }
    ({ db with leads := db.leads ++ [l] }, l)

/-- The write phase of `create_request` (lines 60-68): insert one request
row with status `"active"` and the chosen operator id. -/
def insertRequest (db : DB) (lead_id source_id : Nat) (operator_id : Option Nat)
    (msg : Option String) : DB × Request :=
  let r : Request :=
    { id := freshId (db.requests.map (fun x => x.id)), lead_id := lead_id,
      source_id := source_id, operator_id := operator_id,
      status := "active", message := msg }
  ({ db with requests := db.requests ++ [r] }, r)

/-- `create_request` (`api/requests.py`): find or create the lead, 404 on
a missing source, run the distribution service, insert the request.  An
error leaves the committed state unchanged (the exception is raised
before `db.commit()`). -/
def createRequest (db : DB) (rq : RequestCreate) (r : Int) :
    Except (Nat × String) (DB × Request) :=
  let dbLead := (findOrCreateLead db rq.lead_external_id).1
  let lead := (findOrCreateLead db rq.lead_external_id).2
  match dbLead.sources.find? (fun s => s.id == rq.source_id) with
  | none => Except.error (404, "Source not found")
  | some _ =>
    match assignOperatorToRequest dbLead rq.source_id r with
    | Except.error e => Except.error (500, e)
    | Except.ok assigned =>
      Except.ok (insertRequest dbLead lead.id rq.source_id
        (assigned.map (fun op => op.id)) rq.message)

/-- The row update of `update_request_status`: set `status` on the first
request row with the given id, as the SQL `first()` query does. -/
def updateFirstStatus : List Request → Nat → String → List Request
  | [], _, _ => []
  | r :: rest, rid, st =>
    if r.id == rid then { r with status := st } :: rest
    else r :: updateFirstStatus rest rid st

/-- `update_request_status` (`api/requests.py` lines 150-185): 404 when
the request does not exist, else set its status. -/
def updateRequestStatus (db : DB) (rid : Nat) (st : String) :
    Except (Nat × String) (DB × Request) :=
  match db.requests.find? (fun r => r.id == rid) with
  | none => Except.error (404, "Request not found")
  | some r0 =>
    Except.ok ({ db with requests := updateFirstStatus db.requests rid st },
      { r0 with status := st })

/-- State-level view of `update_request_status`: an error commits
nothing, success installs the new state. -/
def applyUpdateStatus (db : DB) (rid : Nat) (st : String) : DB :=
  match updateRequestStatus db rid st with
  | Except.ok (db', _) => db'
  | Except.error _ => db

/-- Append one weight row (`db.add(db_weight)` in
`configure_source_weights`). -/
def addWeightRow (db : DB) (source_id : Nat) (w : OperatorSourceWeightCreate) : DB :=
  { db with weights := db.weights ++
      [{ id := freshId (db.weights.map (fun x => x.id)), operator_id := w.operator_id,
         source_id := source_id, weight := w.weight }] }

/-- The insertion loop of `configure_source_weights` (lines 99-121): for
each submitted weight, 404 on a missing operator, 400 on a non-positive
weight, else add the row. -/
def insertWeights (db : DB) (source_id : Nat) :
    List OperatorSourceWeightCreate → Except (Nat × String) DB
  | [] => Except.ok db
  | w :: rest =>
    match db.operators.find? (fun o => o.id == w.operator_id) with
    | none =>
      Except.error (404,
        "Operator with ID " ++ toString w.operator_id ++ " not found")
    | some _ =>
      if w.weight ≤ 0 then
        Except.error (400, "Weight must be a positive integer")
      else insertWeights (addWeightRow db source_id w) source_id rest

/-- `configure_source_weights` (`api/sources.py` lines 73-138): 404 on a
missing source, delete the source's existing weight rows, then insert the
submitted list, committing only at the end.

Modelled from the spec: `app/database.py` (the `get_db` session
lifecycle) is not among the sources; per the spec's atomic-replace
requirement for `Reconfigure`, an `HTTPException` raised before the final
`db.commit()` leaves the committed state unchanged, so the error branch
carries no new state and the pending delete is discarded. -/
def configureSourceWeights (db : DB) (source_id : Nat)
    (ws : List OperatorSourceWeightCreate) : Except (Nat × String) DB :=
  match db.sources.find? (fun s => s.id == source_id) with
  | none => Except.error (404, "Source not found")
  | some _ =>
    insertWeights
      { db with weights := db.weights.filter (fun w => !(w.source_id == source_id)) }
      source_id ws

/-- State-level view of `configure_source_weights`: an error rolls back
to the state at entry, success installs the replaced configuration. -/
def applyConfigure (db : DB) (source_id : Nat)
    (ws : List OperatorSourceWeightCreate) : DB :=
  match configureSourceWeights db source_id ws with
  | Except.ok db' => db'
  | Except.error _ => db

/-- The `(source_id, operator_id)` key of each stored weight row. -/
def pairKeys (l : List OperatorSourceWeight) : List (Nat × Nat) :=
  l.map (fun w => (w.source_id, w.operator_id))

end MiniCRM

namespace MiniCRM

/-! ### Arithmetic of prefix sums and the selection kernel -/

/-- The weight column of a candidate list. -/
def weightsOf (cands : List (Operator × Int)) : List Int :=
  cands.map (fun p => p.2)

theorem intSum_cons (w : Int) (l : List Int) : intSum (w :: l) = w + intSum l := rfl

theorem sumTake_zero (ws : List Int) : sumTake ws 0 = 0 := rfl

theorem sumTake_nil (n : Nat) : sumTake [] n = 0 := by cases n <;> rfl

theorem sumTake_cons_succ (w : Int) (t : List Int) (n : Nat) :
    sumTake (w :: t) (n + 1) = w + sumTake t n := rfl

theorem sumTake_nonneg (ws : List Int) (h : ∀ w ∈ ws, 0 ≤ w) (n : Nat) :
    0 ≤ sumTake ws n := by
  induction ws generalizing n with
  | nil => simp [sumTake_nil]
  | cons w t ih =>
    cases n with
    | zero => simp [sumTake_zero]
    | succ m =>
      rw [sumTake_cons_succ]
      have hw := h w (List.mem_cons_self _ _)
      have ht := ih (fun x hx => h x (List.mem_cons_of_mem _ hx)) m
      omega

theorem sumTake_mono (ws : List Int) (h : ∀ w ∈ ws, 0 ≤ w) (m n : Nat) (hmn : m ≤ n) :
    sumTake ws m ≤ sumTake ws n := by
  induction ws generalizing m n with
  | nil => simp [sumTake_nil]
  | cons w t ih =>
    cases m with
    | zero =>
      rw [sumTake_zero]
      exact sumTake_nonneg _ h n
    | succ m' =>
      cases n with
      | zero => omega
      | succ n' =>
        rw [sumTake_cons_succ, sumTake_cons_succ]
        have := ih (fun x hx => h x (List.mem_cons_of_mem _ hx)) m' n' (by omega)
        omega

theorem sumTake_length (ws : List Int) : sumTake ws ws.length = intSum ws := by
  simp [sumTake, List.take_length]

theorem sumTake_succ_get (ws : List Int) (i : Nat) (hi : i < ws.length) :
    sumTake ws (i + 1) = sumTake ws i + ws.get ⟨i, hi⟩ := by
  induction ws generalizing i with
  | nil => simp at hi
  | cons w t ih =>
    cases i with
    | zero => simp [sumTake_cons_succ, sumTake_zero]
    | succ i' =>
      rw [sumTake_cons_succ, sumTake_cons_succ,
        ih i' (by simpa using hi)]
      show w + (sumTake t i' + t.get ⟨i', _⟩) = w + sumTake t i' + t.get ⟨i', _⟩
      ring

theorem pickIdx_lt_length : ∀ (ws : List Int) (r : Int), ws ≠ [] →
    pickIdx ws r < ws.length
  | [], _, h => absurd rfl h
  | [_], _, _ => by simp [pickIdx]
  | w :: v :: rest, r, _ => by
    by_cases hr : r < w
    · simp [pickIdx, hr]
    · have := pickIdx_lt_length (v :: rest) (r - w) (by simp)
      simp only [List.length_cons] at this
      simp only [pickIdx, if_neg hr, List.length_cons]
      omega

theorem pickFrom_eq_get :
    ∀ (c : Operator × Int) (cs : List (Operator × Int)) (r : Int),
      ((c :: cs).get? (pickIdx (weightsOf (c :: cs)) r)).map Prod.fst
        = some (pickFrom c cs r)
  | _, [], _ => by simp [weightsOf, pickIdx, pickFrom]
  | c, d :: rest, r => by
    by_cases hr : r < c.2
    · simp [weightsOf, pickIdx, pickFrom, hr]
    · have ih := pickFrom_eq_get d rest (r - c.2)
      simp only [weightsOf, List.map_cons] at ih ⊢
      simp only [pickIdx, if_neg hr, pickFrom, List.get?_cons_succ]
      exact ih

theorem pickIdx_bounds : ∀ (ws : List Int) (r : Int), ws ≠ [] → 0 ≤ r → r < intSum ws →
    sumTake ws (pickIdx ws r) ≤ r ∧ r < sumTake ws (pickIdx ws r + 1)
  | [], _, h, _, _ => absurd rfl h
  | [w], r, _, h0, hs => by
    have hw : intSum [w] = w := by simp [intSum]
    refine ⟨by simpa [pickIdx, sumTake_zero] using h0, ?_⟩
    simp only [pickIdx, sumTake_cons_succ, sumTake_nil]
    omega
  | w :: v :: rest, r, _, h0, hs => by
    by_cases hr : r < w
    · refine ⟨by simpa [pickIdx, hr, sumTake_zero] using h0, ?_⟩
      simp only [pickIdx, if_pos hr, sumTake_cons_succ, sumTake_zero]
      omega
    · have hsum : intSum (w :: v :: rest) = w + intSum (v :: rest) := rfl
      have ih := pickIdx_bounds (v :: rest) (r - w) (by simp) (by omega) (by omega)
      simp only [sumTake_cons_succ] at ih
      simp only [pickIdx, if_neg hr, sumTake_cons_succ]
      omega

theorem pickIdx_le : ∀ (ws : List Int) (r : Int) (j : Nat),
    r < sumTake ws (j + 1) → pickIdx ws r ≤ j
  | [], _, _, _ => by simp [pickIdx]
  | [_], _, _, _ => by simp [pickIdx]
  | w :: v :: rest, r, j, h => by
    by_cases hr : r < w
    · simp [pickIdx, hr]
    · cases j with
      | zero =>
        rw [sumTake_cons_succ, sumTake_zero] at h
        omega
      | succ j' =>
        rw [sumTake_cons_succ] at h
        have := pickIdx_le (v :: rest) (r - w) j' (by omega)
        simp only [pickIdx, if_neg hr]
        omega

theorem pickIdx_eq_iff (ws : List Int) (r : Int) (i : Nat)
    (hpos : ∀ w ∈ ws, 0 < w) (h0 : 0 ≤ r) (hr : r < intSum ws) (hi : i < ws.length) :
    pickIdx ws r = i ↔ (sumTake ws i ≤ r ∧ r < sumTake ws (i + 1)) := by
  have hne : ws ≠ [] := by
    intro h
    subst h
    simp at hi
  have hb := pickIdx_bounds ws r hne h0 hr
  constructor
  · rintro rfl
    exact hb
  · rintro ⟨h1, h2⟩
    have hle := pickIdx_le ws r i h2
    rcases Nat.lt_or_ge (pickIdx ws r) i with hlt | hge
    · exfalso
      have hmono : sumTake ws (pickIdx ws r + 1) ≤ sumTake ws i :=
        sumTake_mono ws (fun w hw => le_of_lt (hpos w hw)) (pickIdx ws r + 1) i (by omega)
      omega
    · omega

theorem card_pickIdx (ws : List Int) (hpos : ∀ w ∈ ws, 0 < w) (i : Nat)
    (hi : i < ws.length) :
    ((Finset.Ico (0 : Int) (intSum ws)).filter (fun r => pickIdx ws r = i)).card
      = (ws.get ⟨i, hi⟩).toNat := by
  have hnn : ∀ w ∈ ws, (0 : Int) ≤ w := fun w hw => le_of_lt (hpos w hw)
  have hset : (Finset.Ico (0 : Int) (intSum ws)).filter (fun r => pickIdx ws r = i)
      = Finset.Ico (sumTake ws i) (sumTake ws (i + 1)) := by
    ext r
    simp only [Finset.mem_filter, Finset.mem_Ico]
    constructor
    · rintro ⟨⟨h0, hr⟩, hpick⟩
      exact (pickIdx_eq_iff ws r i hpos h0 hr hi).1 hpick
    · rintro ⟨h1, h2⟩
      have h0 : (0 : Int) ≤ r := le_trans (sumTake_nonneg ws hnn i) h1
      have hiL : sumTake ws (i + 1) ≤ intSum ws := by
        have := sumTake_mono ws hnn (i + 1) ws.length (by omega)
        rwa [sumTake_length] at this
      have hr : r < intSum ws := lt_of_lt_of_le h2 hiL
      exact ⟨⟨h0, hr⟩, (pickIdx_eq_iff ws r i hpos h0 hr hi).2 ⟨h1, h2⟩⟩
  rw [hset, Int.card_Ico, sumTake_succ_get ws i hi]
  omega

end MiniCRM

namespace MiniCRM

/-! ### Concrete fixtures used by witnesses and counterexamples -/

/-- Active operator with capacity 1. -/
def opA : Operator := { id := 1, name := "A", is_active := true, max_load := 1 }

/-- Active operator with capacity 5. -/
def opB : Operator := { id := 2, name := "B", is_active := true, max_load := 5 }

/-- A source. -/
def srcS : Source := { id := 1, name := "S" }

/-- A lead. -/
def leadL : Lead := { id := 1, external_id := "L" }

/-- Weight 1 for operator 1 on source 1. -/
def wA1 : OperatorSourceWeight := { id := 1, operator_id := 1, source_id := 1, weight := 1 }

/-- A state with a single operator of capacity 1, weight 1 on source 1,
and no requests. -/
def dbRace : DB :=
  { operators := [opA], sources := [srcS], leads := [leadL],
    weights := [wA1], requests := [] }

/-- Weight row with weight 0 for the active, under-capacity operator 2. -/
def wZero : OperatorSourceWeight := { id := 1, operator_id := 2, source_id := 1, weight := 0 }

/-- A state holding the zero-weight row. -/
def dbZeroWeight : DB :=
  { operators := [opB], sources := [srcS], leads := [], weights := [wZero], requests := [] }

/-- A state with one operator and one source and no weights. -/
def dbCfg : DB :=
  { operators := [opA], sources := [srcS], leads := [], weights := [], requests := [] }

/-- A request pointing at operator 5 on source 2. -/
def reqX : Request :=
  { id := 1, lead_id := 1, source_id := 2, operator_id := some 5, status := "active",
    message := none }

/-- A state with that request and no operator rows at all. -/
def dbStats : DB :=
  { operators := [], sources := [], leads := [], weights := [], requests := [reqX] }

/-! ### Claim theorems: weighted selection -/

/-- C3: for a non-empty candidate list whose weights are positive and any
fixed draw `r` in `[0, total)`, the selection is the deterministic
function of `(candidates, r)` that returns the candidate at index
`pickIdx`, which is the first index whose cumulative (prefix-sum) weight
exceeds `r`; moreover each index `k` is selected for exactly
`weight k`-many draws in `[0, total)`, i.e. with exact probability
`weight / total` in integer arithmetic. -/
theorem select_operator_weighted_first_exceeds
    (c : Operator × Int) (cs : List (Operator × Int)) (ws : List Int) (r : Int)
    (hws : ws = weightsOf (c :: cs))
    (hpos : ∀ w ∈ ws, 0 < w) (h0 : 0 ≤ r) (hr : r < intSum ws) :
    pickIdx ws r < (c :: cs).length
    ∧ selectOperatorWeighted (c :: cs) r
        = Except.ok (((c :: cs).get? (pickIdx ws r)).map Prod.fst)
    ∧ sumTake ws (pickIdx ws r) ≤ r
    ∧ r < sumTake ws (pickIdx ws r + 1)
    ∧ (∀ j : Nat, r < sumTake ws (j + 1) → pickIdx ws r ≤ j)
    ∧ ∀ (k : Nat) (hk : k < ws.length),
        ((Finset.Ico (0 : Int) (intSum ws)).filter (fun x => pickIdx ws x = k)).card
          = (ws.get ⟨k, hk⟩).toNat := by
  subst hws
  have hne : weightsOf (c :: cs) ≠ [] := by simp [weightsOf]
  have htot : 0 < intSum (weightsOf (c :: cs)) := lt_of_le_of_lt h0 hr
  have hlen : (weightsOf (c :: cs)).length = (c :: cs).length := by simp [weightsOf]
  refine ⟨?_, ?_, (pickIdx_bounds _ r hne h0 hr).1, (pickIdx_bounds _ r hne h0 hr).2,
    fun j hj => pickIdx_le _ r j hj, fun k hk => card_pickIdx _ hpos k hk⟩
  · rw [← hlen]
    exact pickIdx_lt_length _ r hne
  · have hgt : ¬ intSum ((c :: cs).map (fun p => p.2)) ≤ 0 := by
      simp only [weightsOf] at htot
      omega
    simp only [selectOperatorWeighted, if_neg hgt]
    rw [pickFrom_eq_get]

/-- Witness for C3 at candidates `[(opA, 1), (opB, 3)]` and draw 2. -/
theorem select_operator_weighted_first_exceeds_witness :
    pickIdx [1, 3] 2 < ([(opA, 1), (opB, 3)] : List (Operator × Int)).length
    ∧ selectOperatorWeighted [(opA, 1), (opB, 3)] 2
        = Except.ok ((([(opA, 1), (opB, 3)] : List (Operator × Int)).get?
            (pickIdx [1, 3] 2)).map Prod.fst)
    ∧ sumTake [1, 3] (pickIdx [1, 3] 2) ≤ 2
    ∧ (2 : Int) < sumTake [1, 3] (pickIdx [1, 3] 2 + 1)
    ∧ (∀ j : Nat, (2 : Int) < sumTake [1, 3] (j + 1) → pickIdx [1, 3] 2 ≤ j)
    ∧ ∀ (k : Nat) (hk : k < ([1, 3] : List Int).length),
        ((Finset.Ico (0 : Int) (intSum [1, 3])).filter (fun x => pickIdx [1, 3] x = k)).card
          = (([1, 3] : List Int).get ⟨k, hk⟩).toNat :=
  select_operator_weighted_first_exceeds (opA, 1) [(opB, 3)] [1, 3] 2 rfl
    (by decide) (by decide) (by decide)

/-- C6 counterexample: `select_operator_weighted` on the empty candidate
list returns the value `None` (`Except.ok none`); no error is raised, so
the claimed `EmptyCandidateSet` failure does not occur. -/
theorem select_empty_counterexample :
    selectOperatorWeighted [] 0 = Except.ok none := rfl

/-- C6 amended: `select_operator_weighted` called with zero candidates
returns `None` rather than failing with an error. -/
theorem select_empty_returns_none (r : Int) :
    selectOperatorWeighted [] r = Except.ok none := rfl

/-- C1 (code bug): two concurrent `create_request` calls that both run
the read phase (`assign_operator_to_request`) against the same committed
state before either inserts will both select operator 1 (capacity 1,
load 0); after both inserts commit, the operator's current load is 2,
exceeding `max_load = 1`: the check-then-act filter is not an atomic
reservation, so the capacity invariant fails under concurrency. -/
theorem concurrent_assign_overloads_operator :
    assignOperatorToRequest dbRace 1 0 = Except.ok (some opA)
    ∧ opA.get_current_load
        ((insertRequest ((insertRequest dbRace 1 1 (some 1) none).1) 1 1
          (some 1) none).1) = 2
    ∧ opA.max_load = 1 :=
  ⟨rfl, rfl, rfl⟩

/-- C4 counterexample: a stored weight row with weight 0 whose operator
is active and under capacity is returned by
`get_available_operators` — the filter never checks the weight's sign. -/
theorem available_includes_nonpositive_weight :
    getAvailableOperators dbZeroWeight 1 = [(opB, 0)] := rfl

/-- C8 counterexample: one `configure_source_weights` call whose list
names operator 1 twice succeeds and stores two rows with the same
`(source_id, operator_id)` key `(1, 1)`: the table has no uniqueness
constraint and the endpoint does not deduplicate. -/
theorem configure_duplicate_operator_rows :
    (configureSourceWeights dbCfg 1
        [{ operator_id := 1, weight := 1 }, { operator_id := 1, weight := 2 }]).toOption.map
      (fun d => pairKeys d.weights) = some [(1, 1), (1, 1)]
    ∧ ¬ ([((1 : Nat), (1 : Nat)), (1, 1)] : List (Nat × Nat)).Nodup :=
  ⟨rfl, by decide⟩

/-- C10: `get_operator_statistics` for an operator id that matches no
operator row does not fail: it returns name `"Unknown"`, zero current
and maximum load, and the count of request rows recorded for the
`(operator_id, source_id)` pair. -/
theorem stats_unknown_operator (db : DB) (oid sid : Nat)
    (h : ∀ op ∈ db.operators, op.id ≠ oid) :
    getOperatorStatistics db oid sid =
      { operator_id := oid, operator_name := "Unknown",
        total_requests := (db.requests.filter
          (fun r => r.operator_id == some oid && r.source_id == sid)).length,
        current_load := 0, max_load := 0 } := by
  have hf : db.operators.find? (fun o => o.id == oid) = none := by
    rw [List.find?_eq_none]
    intro op hop
    simpa using h op hop
  simp [getOperatorStatistics, hf]

/-- Witness for C10: a state with a request for operator 5 on source 2
but no operator rows. -/
theorem stats_unknown_operator_witness :
    getOperatorStatistics dbStats 5 2 =
      { operator_id := 5, operator_name := "Unknown",
        total_requests := (dbStats.requests.filter
          (fun r => r.operator_id == some 5 && r.source_id == 2)).length,
        current_load := 0, max_load := 0 } :=
  stats_unknown_operator dbStats 5 2 (by decide)

end MiniCRM

namespace MiniCRM

/-! ### Characterizing the capacity filter -/

/-- What the filter loop does with one weight row. -/
def availEntry (db : DB) (wr : OperatorSourceWeight) : Option (Operator × Int) :=
  match db.operators.find? (fun o => o.id == wr.operator_id) with
  | none => none
  | some op =>
    if !op.is_active then none
    else if op.max_load ≤ op.get_current_load db then none
    else some (op, wr.weight)

theorem availableFrom_eq_filterMap (db : DB) (l : List OperatorSourceWeight) :
    availableFrom db l = l.filterMap (availEntry db) := by
  induction l with
  | nil => rfl
  | cons a t ih =>
    simp only [availableFrom, availEntry, List.filterMap_cons]
    cases db.operators.find? (fun o => o.id == a.operator_id) with
    | none => exact ih
    | some o =>
      by_cases h1 : !o.is_active
      · simp [h1, ih]
      · by_cases h2 : o.max_load ≤ o.get_current_load db
        · simp [h1, h2, ih]
        · simp [h1, h2, ih]

theorem availEntry_none (db : DB) (wr : OperatorSourceWeight)
    (h : db.operators.find? (fun o => o.id == wr.operator_id) = none) :
    availEntry db wr = none := by
  unfold availEntry
  rw [h]

theorem availEntry_some (db : DB) (wr : OperatorSourceWeight) (op : Operator)
    (h : db.operators.find? (fun o => o.id == wr.operator_id) = some op) :
    availEntry db wr =
      if !op.is_active then none
      else if op.max_load ≤ op.get_current_load db then none
      else some (op, wr.weight) := by
  unfold availEntry
  rw [h]

theorem availEntry_eq_some_iff (db : DB) (wr : OperatorSourceWeight)
    (op : Operator) (w : Int) :
    availEntry db wr = some (op, w) ↔
      db.operators.find? (fun o => o.id == wr.operator_id) = some op
      ∧ op.is_active = true ∧ op.get_current_load db < op.max_load
      ∧ wr.weight = w := by
  cases hfind : db.operators.find? (fun o => o.id == wr.operator_id) with
  | none => simp [availEntry_none db wr hfind]
  | some o =>
    rw [availEntry_some db wr o hfind]
    constructor
    · intro h
      split_ifs at h with h1 h2
      · cases h
        refine ⟨rfl, by simpa using h1, by omega, rfl⟩
    · rintro ⟨ho, hact, hload, rfl⟩
      cases ho
      have c1 : ¬((!op.is_active) = true) := by simp [hact]
      have c2 : ¬(op.max_load ≤ op.get_current_load db) := by omega
      rw [if_neg c1, if_neg c2]

theorem find?_operators_of_nodup (l : List Operator) (op : Operator) (oid : Nat)
    (hnodup : (l.map (fun o => o.id)).Nodup) (hmem : op ∈ l) (hid : op.id = oid) :
    l.find? (fun o => o.id == oid) = some op := by
  induction l with
  | nil => simp at hmem
  | cons a t ih =>
    simp only [List.map_cons, List.nodup_cons] at hnodup
    rcases List.mem_cons.1 hmem with rfl | hmem'
    · exact List.find?_cons_of_pos t (by simp [hid])
    · have haid : a.id ≠ oid := by
        intro h
        apply hnodup.1
        have hsub : op.id ∈ t.map (fun o => o.id) := List.mem_map_of_mem _ hmem'
        rw [hid] at hsub
        rw [h]
        exact hsub
      have hfalse : (a.id == oid) = false := beq_eq_false_iff_ne.2 haid
      rw [List.find?_cons, hfalse]
      exact ih hnodup.2 hmem'

theorem mem_getAvailableOperators (db : DB) (sid : Nat) (op : Operator) (w : Int)
    (hnodup : (db.operators.map (fun o => o.id)).Nodup) :
    (op, w) ∈ getAvailableOperators db sid ↔
      (∃ wr ∈ db.weights, wr.source_id = sid ∧ wr.operator_id = op.id ∧ wr.weight = w)
      ∧ op ∈ db.operators ∧ op.is_active = true
      ∧ op.get_current_load db < op.max_load := by
  unfold getAvailableOperators
  rw [availableFrom_eq_filterMap, List.mem_filterMap]
  constructor
  · rintro ⟨wr, hwr, hentry⟩
    rw [availEntry_eq_some_iff] at hentry
    obtain ⟨hfind, hact, hload, hw⟩ := hentry
    have hmem := List.mem_of_find?_eq_some hfind
    have hid : op.id = wr.operator_id := by
      have := List.find?_some hfind
      simpa using this
    rw [List.mem_filter] at hwr
    exact ⟨⟨wr, hwr.1, by simpa using hwr.2, hid.symm, hw⟩, hmem, hact, hload⟩
  · rintro ⟨⟨wr, hwr, hsid, hopid, hw⟩, hmem, hact, hload⟩
    refine ⟨wr, ?_, ?_⟩
    · rw [List.mem_filter]
      exact ⟨hwr, by simp [hsid]⟩
    · rw [availEntry_eq_some_iff]
      exact ⟨find?_operators_of_nodup _ op wr.operator_id hnodup hmem hopid.symm,
        hact, hload, hw⟩

theorem intSum_nonneg (l : List Int) (h : ∀ x ∈ l, 0 ≤ x) : 0 ≤ intSum l := by
  induction l with
  | nil => simp [intSum]
  | cons x t ih =>
    have ht := ih (fun z hz => h z (List.mem_cons_of_mem _ hz))
    have hx := h x (List.mem_cons_self _ _)
    simp only [intSum_cons]
    omega

theorem intSum_pos (l : List Int) (hne : l ≠ []) (h : ∀ x ∈ l, 0 < x) : 0 < intSum l := by
  cases l with
  | nil => exact absurd rfl hne
  | cons x t =>
    have hx := h x (List.mem_cons_self _ _)
    have ht := intSum_nonneg t (fun z hz => le_of_lt (h z (List.mem_cons_of_mem _ hz)))
    simp only [intSum_cons]
    omega

theorem selectOperatorWeighted_pos (c : Operator × Int) (cs : List (Operator × Int))
    (r : Int) (hpos : ∀ p ∈ c :: cs, 0 < p.2) :
    selectOperatorWeighted (c :: cs) r = Except.ok (some (pickFrom c cs r)) := by
  have htot : 0 < intSum ((c :: cs).map (fun p => p.2)) := by
    refine intSum_pos _ (by simp) ?_
    intro x hx
    rw [List.mem_map] at hx
    obtain ⟨p, hp, rfl⟩ := hx
    exact hpos p hp
  simp only [selectOperatorWeighted, if_neg (by omega : ¬ intSum ((c :: cs).map (fun p => p.2)) ≤ 0)]

theorem get_current_load_congr (op : Operator) (db1 db2 : DB)
    (hr : db1.requests = db2.requests) :
    op.get_current_load db1 = op.get_current_load db2 := by
  unfold Operator.get_current_load
  rw [hr]

theorem availableFrom_congr (db1 db2 : DB) (hop : db1.operators = db2.operators)
    (hr : db1.requests = db2.requests) (l : List OperatorSourceWeight) :
    availableFrom db1 l = availableFrom db2 l := by
  induction l with
  | nil => rfl
  | cons a t ih =>
    simp only [availableFrom, hop, ih,
      show ∀ op : Operator, op.get_current_load db1 = op.get_current_load db2 from
        fun op => get_current_load_congr op db1 db2 hr]

theorem getAvailableOperators_congr (db1 db2 : DB) (hop : db1.operators = db2.operators)
    (hw : db1.weights = db2.weights) (hr : db1.requests = db2.requests) (sid : Nat) :
    getAvailableOperators db1 sid = getAvailableOperators db2 sid := by
  unfold getAvailableOperators
  rw [hw, availableFrom_congr db1 db2 hop hr]

theorem findOrCreateLead_sources (db : DB) (e : String) :
    ((findOrCreateLead db e).1).sources = db.sources := by
  unfold findOrCreateLead
  cases db.leads.find? (fun l => l.external_id == e) <;> rfl

theorem findOrCreateLead_operators (db : DB) (e : String) :
    ((findOrCreateLead db e).1).operators = db.operators := by
  unfold findOrCreateLead
  cases db.leads.find? (fun l => l.external_id == e) <;> rfl

theorem findOrCreateLead_weights (db : DB) (e : String) :
    ((findOrCreateLead db e).1).weights = db.weights := by
  unfold findOrCreateLead
  cases db.leads.find? (fun l => l.external_id == e) <;> rfl

theorem findOrCreateLead_requests (db : DB) (e : String) :
    ((findOrCreateLead db e).1).requests = db.requests := by
  unfold findOrCreateLead
  cases db.leads.find? (fun l => l.external_id == e) <;> rfl

end MiniCRM

namespace MiniCRM

/-- Request payload used in witnesses: lead "L" on source 1. -/
def rqL : RequestCreate := { lead_external_id := "L", source_id := 1, message := none }

/-- C4 amended: `get_available_operators` returns exactly the
`(operator, weight)` pairs of weight rows configured for the source whose
operator exists, is active and has `currentLoad < maxLoad` at filter
time; inactive or at-capacity operators are never included, but the sign
of the weight is not checked by the filter (non-positive weights are
rejected only at configuration time). -/
theorem available_operators_exactly_active_under_capacity
    (db : DB) (sid : Nat) (op : Operator) (w : Int)
    (hnodup : (db.operators.map (fun o => o.id)).Nodup) :
    (op, w) ∈ getAvailableOperators db sid ↔
      (∃ wr ∈ db.weights, wr.source_id = sid ∧ wr.operator_id = op.id ∧ wr.weight = w)
      ∧ op ∈ db.operators ∧ op.is_active = true
      ∧ op.get_current_load db < op.max_load :=
  mem_getAvailableOperators db sid op w hnodup

/-- Witness for C4's amended statement at the zero-weight fixture. -/
theorem available_operators_exactly_active_under_capacity_witness :
    (opB, (0 : Int)) ∈ getAvailableOperators dbZeroWeight 1 ↔
      (∃ wr ∈ dbZeroWeight.weights, wr.source_id = 1 ∧ wr.operator_id = opB.id
        ∧ wr.weight = 0)
      ∧ opB ∈ dbZeroWeight.operators ∧ opB.is_active = true
      ∧ opB.get_current_load dbZeroWeight < opB.max_load :=
  available_operators_exactly_active_under_capacity dbZeroWeight 1 opB 0 (by decide)

/-- C2: `create_request` raises 404 "Source not found" exactly when no
source row has the requested id; for an existing source (in a state whose
weights for that source are positive, as the configuration endpoint
guarantees) it never fails, and the created request has no operator
exactly when no active operator configured for the source has spare
capacity (which covers a source with no weight rows at all). -/
theorem create_request_source_check (db : DB) (rq : RequestCreate) (r : Int)
    (hnodup : (db.operators.map (fun o => o.id)).Nodup)
    (hwpos : ∀ w ∈ db.weights, w.source_id = rq.source_id → 0 < w.weight) :
    (createRequest db rq r = Except.error (404, "Source not found")
      ↔ ∀ s ∈ db.sources, s.id ≠ rq.source_id)
    ∧ ((∃ s ∈ db.sources, s.id = rq.source_id) →
        ∃ db' req, createRequest db rq r = Except.ok (db', req)
          ∧ (req.operator_id = none ↔
              ¬ ∃ op ∈ db.operators, op.is_active = true
                ∧ op.get_current_load db < op.max_load
                ∧ ∃ wr ∈ db.weights, wr.source_id = rq.source_id
                  ∧ wr.operator_id = op.id)) := by
  have hsrcs := findOrCreateLead_sources db rq.lead_external_id
  have havail : getAvailableOperators (findOrCreateLead db rq.lead_external_id).1
      rq.source_id = getAvailableOperators db rq.source_id :=
    getAvailableOperators_congr _ db (findOrCreateLead_operators db _)
      (findOrCreateLead_weights db _) (findOrCreateLead_requests db _) _
  cases hfind : db.sources.find? (fun s => s.id == rq.source_id) with
  | none =>
    have hforall : ∀ s ∈ db.sources, s.id ≠ rq.source_id := by
      have h := List.find?_eq_none.1 hfind
      intro s hs
      simpa using h s hs
    have hcr : createRequest db rq r = Except.error (404, "Source not found") := by
      simp only [createRequest]
      rw [hsrcs, hfind]
    refine ⟨⟨fun _ => hforall, fun _ => hcr⟩, ?_⟩
    rintro ⟨s, hs, hseq⟩
    exact absurd hseq (hforall s hs)
  | some s0 =>
    have hsmem := List.mem_of_find?_eq_some hfind
    have hsid : s0.id = rq.source_id := by simpa using List.find?_some hfind
    have hnotall : ¬ ∀ s ∈ db.sources, s.id ≠ rq.source_id := by
      intro h
      exact h s0 hsmem hsid
    cases hav : getAvailableOperators db rq.source_id with
    | nil =>
      have hassign : assignOperatorToRequest
          (findOrCreateLead db rq.lead_external_id).1 rq.source_id r
          = Except.ok none := by
        unfold assignOperatorToRequest
        rw [havail, hav]
      have hcr : createRequest db rq r
          = Except.ok (insertRequest (findOrCreateLead db rq.lead_external_id).1
              (findOrCreateLead db rq.lead_external_id).2.id rq.source_id none
              rq.message) := by
        simp only [createRequest]
        rw [hsrcs, hfind, hassign]
        rfl
      have hnone : ¬ ∃ op ∈ db.operators, op.is_active = true
          ∧ op.get_current_load db < op.max_load
          ∧ ∃ wr ∈ db.weights, wr.source_id = rq.source_id
            ∧ wr.operator_id = op.id := by
        rintro ⟨op, hop, hact, hload, wr, hwr, hwsid, hwopid⟩
        have hmem : (op, wr.weight) ∈ getAvailableOperators db rq.source_id :=
          (mem_getAvailableOperators db rq.source_id op wr.weight hnodup).2
            ⟨⟨wr, hwr, hwsid, hwopid, rfl⟩, hop, hact, hload⟩
        rw [hav] at hmem
        exact absurd hmem (List.not_mem_nil _)
      refine ⟨⟨fun h => absurd (hcr ▸ h) (by simp), fun h => absurd h hnotall⟩, ?_⟩
      intro _
      exact ⟨_, _, hcr, fun _ => hnone, fun _ => rfl⟩
    | cons c cs =>
      have hpos : ∀ p ∈ c :: cs, 0 < p.2 := by
        intro p hp
        rw [← hav] at hp
        rcases p with ⟨op, w⟩
        obtain ⟨⟨wr, hwr, hwsid, _, hww⟩, _⟩ :=
          (mem_getAvailableOperators db rq.source_id op w hnodup).1 hp
        rw [← hww]
        exact hwpos wr hwr hwsid
      have hassign : assignOperatorToRequest
          (findOrCreateLead db rq.lead_external_id).1 rq.source_id r
          = Except.ok (some (pickFrom c cs r)) := by
        unfold assignOperatorToRequest
        rw [havail, hav]
        exact selectOperatorWeighted_pos c cs r hpos
      have hcr : createRequest db rq r
          = Except.ok (insertRequest (findOrCreateLead db rq.lead_external_id).1
              (findOrCreateLead db rq.lead_external_id).2.id rq.source_id
              (some (pickFrom c cs r).id) rq.message) := by
        simp only [createRequest]
        rw [hsrcs, hfind, hassign]
        rfl
      have hex : ∃ op ∈ db.operators, op.is_active = true
          ∧ op.get_current_load db < op.max_load
          ∧ ∃ wr ∈ db.weights, wr.source_id = rq.source_id
            ∧ wr.operator_id = op.id := by
        obtain ⟨⟨wr, hwr, hwsid, hwopid, _⟩, hop, hact, hload⟩ :=
          (mem_getAvailableOperators db rq.source_id c.1 c.2 hnodup).1
            (by rw [hav]; exact List.mem_cons_self _ _)
        exact ⟨c.1, hop, hact, hload, wr, hwr, hwsid, hwopid⟩
      refine ⟨⟨fun h => absurd (hcr ▸ h) (by simp), fun h => absurd h hnotall⟩, ?_⟩
      intro _
      refine ⟨_, _, hcr, ?_, ?_⟩
      · intro h
        simp [insertRequest] at h
      · intro hno
        exact absurd hex hno

/-- Witness for C2 at the one-operator fixture: source 1 exists, so the
call succeeds and assigns the available operator. -/
theorem create_request_source_check_witness :
    (createRequest dbRace rqL 0 = Except.error (404, "Source not found")
      ↔ ∀ s ∈ dbRace.sources, s.id ≠ rqL.source_id)
    ∧ ((∃ s ∈ dbRace.sources, s.id = rqL.source_id) →
        ∃ db' req, createRequest dbRace rqL 0 = Except.ok (db', req)
          ∧ (req.operator_id = none ↔
              ¬ ∃ op ∈ dbRace.operators, op.is_active = true
                ∧ op.get_current_load dbRace < op.max_load
                ∧ ∃ wr ∈ dbRace.weights, wr.source_id = rqL.source_id
                  ∧ wr.operator_id = op.id)) :=
  create_request_source_check dbRace rqL 0 (by decide) (by decide)

end MiniCRM

namespace MiniCRM

/-! ### Updating a request's status -/

theorem find?_updateFirstStatus (l : List Request) (rid : Nat) (st : String) :
    (updateFirstStatus l rid st).find? (fun r => r.id == rid)
      = (l.find? (fun r => r.id == rid)).map (fun r => { r with status := st }) := by
  induction l with
  | nil => rfl
  | cons a t ih =>
    cases hb : (a.id == rid) with
    | true =>
      simp only [updateFirstStatus, hb, if_true]
      rw [List.find?_cons, List.find?_cons, hb]
      rfl
    | false =>
      simp only [updateFirstStatus, hb, Bool.false_eq_true, if_false]
      rw [List.find?_cons, List.find?_cons, hb]
      exact ih

theorem updateFirstStatus_idem (l : List Request) (rid : Nat) (st : String) :
    updateFirstStatus (updateFirstStatus l rid st) rid st
      = updateFirstStatus l rid st := by
  induction l with
  | nil => rfl
  | cons a t ih =>
    cases hb : (a.id == rid) with
    | true =>
      simp only [updateFirstStatus, hb, if_true]
    | false =>
      simp only [updateFirstStatus, hb, Bool.false_eq_true, if_false, ih]

/-- C9: setting a request's status is idempotent at the state level —
repeating `update_request_status` with the same status is a no-op after
the first call — and, because `currentLoad` is derived as a count of
active request rows, it is never negative in any state: a double release
cannot drive an operator's load below zero. -/
theorem update_status_idempotent_and_load_nonneg (db : DB) (rid : Nat) (st : String) :
    applyUpdateStatus (applyUpdateStatus db rid st) rid st = applyUpdateStatus db rid st
    ∧ ∀ op : Operator, 0 ≤ op.get_current_load db := by
  constructor
  · cases hfind : db.requests.find? (fun r => r.id == rid) with
    | none =>
      have h1 : applyUpdateStatus db rid st = db := by
        unfold applyUpdateStatus updateRequestStatus
        rw [hfind]
      rw [h1, h1]
    | some r0 =>
      have h1 : applyUpdateStatus db rid st
          = { db with requests := updateFirstStatus db.requests rid st } := by
        unfold applyUpdateStatus updateRequestStatus
        rw [hfind]
      have hfind2 : ({ db with requests := updateFirstStatus db.requests rid st }
          : DB).requests.find? (fun r => r.id == rid)
          = some { r0 with status := st } := by
        show (updateFirstStatus db.requests rid st).find? (fun r => r.id == rid) = _
        rw [find?_updateFirstStatus, hfind]
        rfl
      have h2 : applyUpdateStatus
          { db with requests := updateFirstStatus db.requests rid st } rid st
          = { db with requests :=
              updateFirstStatus (updateFirstStatus db.requests rid st) rid st } := by
        unfold applyUpdateStatus updateRequestStatus
        rw [hfind2]
      rw [h1, h2, updateFirstStatus_idem]
  · intro op
    unfold Operator.get_current_load
    exact Int.natCast_nonneg _

end MiniCRM

namespace MiniCRM

theorem find?_requests_of_nodup (l : List Request) (rq : Request) (rid : Nat)
    (hnodup : (l.map (fun r => r.id)).Nodup) (hmem : rq ∈ l) (hid : rq.id = rid) :
    l.find? (fun r => r.id == rid) = some rq := by
  induction l with
  | nil => simp at hmem
  | cons a t ih =>
    simp only [List.map_cons, List.nodup_cons] at hnodup
    rcases List.mem_cons.1 hmem with rfl | hmem'
    · exact List.find?_cons_of_pos t (by simp [hid])
    · have haid : a.id ≠ rid := by
        intro h
        apply hnodup.1
        have hsub : rq.id ∈ t.map (fun r => r.id) := List.mem_map_of_mem _ hmem'
        rw [hid] at hsub
        rw [h]
        exact hsub
      have hfalse : (a.id == rid) = false := beq_eq_false_iff_ne.2 haid
      rw [List.find?_cons, hfalse]
      exact ih hnodup.2 hmem'

theorem length_filter_updateFirst (l : List Request) (rq : Request) (st : String)
    (oid : Nat) (hnodup : (l.map (fun r => r.id)).Nodup) (hmem : rq ∈ l)
    (hrqop : rq.operator_id = some oid) (hrqst : rq.status = "active")
    (hst : st ≠ "active") :
    ((updateFirstStatus l rq.id st).filter
        (fun r => r.operator_id == some oid && r.status == "active")).length + 1
      = (l.filter (fun r => r.operator_id == some oid && r.status == "active")).length := by
  induction l with
  | nil => simp at hmem
  | cons a t ih =>
    simp only [List.map_cons, List.nodup_cons] at hnodup
    rcases List.mem_cons.1 hmem with rfl | hmem'
    · have hb : (rq.id == rq.id) = true := by simp
      simp only [updateFirstStatus, hb, if_true]
      have hpnew : (({ rq with status := st } : Request).operator_id == some oid
          && ({ rq with status := st } : Request).status == "active") = false := by
        simp [hst]
      have hpold : (rq.operator_id == some oid && rq.status == "active") = true := by
        simp [hrqop, hrqst]
      rw [List.filter_cons, List.filter_cons, hpnew, hpold]
      simp
    · have haid : a.id ≠ rq.id := by
        intro h
        apply hnodup.1
        have hsub : rq.id ∈ t.map (fun r => r.id) := List.mem_map_of_mem _ hmem'
        rw [h]
        exact hsub
      have hfalse : (a.id == rq.id) = false := beq_eq_false_iff_ne.2 haid
      simp only [updateFirstStatus, hfalse, Bool.false_eq_true, if_false]
      cases hpa : (a.operator_id == some oid && a.status == "active") with
      | true =>
        rw [List.filter_cons, List.filter_cons, hpa]
        simp only [if_true, List.length_cons]
        have := ih hnodup.2 hmem'
        omega
      | false =>
        rw [List.filter_cons, List.filter_cons, hpa]
        simp only [Bool.false_eq_true, if_false]
        exact ih hnodup.2 hmem'

theorem get_current_load_after_update (db : DB) (op : Operator) (rq : Request)
    (st : String) (hnodup : (db.requests.map (fun r => r.id)).Nodup)
    (hmem : rq ∈ db.requests) (hrqop : rq.operator_id = some op.id)
    (hrqst : rq.status = "active") (hst : st ≠ "active") :
    op.get_current_load { db with requests := updateFirstStatus db.requests rq.id st }
        + 1 = op.get_current_load db := by
  unfold Operator.get_current_load
  have h := length_filter_updateFirst db.requests rq st op.id hnodup hmem hrqop hrqst hst
  exact_mod_cast h

theorem exists_draw_pickFrom (c : Operator × Int) (cs : List (Operator × Int))
    (hpos : ∀ p ∈ c :: cs, 0 < p.2) (p : Operator × Int) (hp : p ∈ c :: cs) :
    ∃ r : Int, pickFrom c cs r = p.1 := by
  obtain ⟨⟨i, hi⟩, hget⟩ := List.mem_iff_get.1 hp
  refine ⟨sumTake (weightsOf (c :: cs)) i, ?_⟩
  have hws : (weightsOf (c :: cs)).length = (c :: cs).length := by simp [weightsOf]
  have hpos' : ∀ w ∈ weightsOf (c :: cs), 0 < w := by
    intro w hw
    rw [weightsOf, List.mem_map] at hw
    obtain ⟨q, hq, rfl⟩ := hw
    exact hpos q hq
  have hnn : ∀ w ∈ weightsOf (c :: cs), (0 : Int) ≤ w :=
    fun w hw => le_of_lt (hpos' w hw)
  have h0 : 0 ≤ sumTake (weightsOf (c :: cs)) i := sumTake_nonneg _ hnn i
  have hiw : i < (weightsOf (c :: cs)).length := by
    rw [hws]
    exact hi
  have hgetpos := hpos' ((weightsOf (c :: cs)).get ⟨i, hiw⟩) (List.get_mem _ _ _)
  have hstep := sumTake_succ_get (weightsOf (c :: cs)) i hiw
  have hlt : sumTake (weightsOf (c :: cs)) i < intSum (weightsOf (c :: cs)) := by
    have hmono := sumTake_mono _ hnn (i + 1) (weightsOf (c :: cs)).length (by omega)
    rw [sumTake_length] at hmono
    omega
  have hidx : pickIdx (weightsOf (c :: cs)) (sumTake (weightsOf (c :: cs)) i) = i := by
    rw [pickIdx_eq_iff _ _ _ hpos' h0 hlt hiw]
    exact ⟨le_refl _, by omega⟩
  have hpf := pickFrom_eq_get c cs (sumTake (weightsOf (c :: cs)) i)
  rw [hidx, List.get?_eq_get hi, hget] at hpf
  simpa using hpf.symm

/-- C7: an operator at `currentLoad == maxLoad` is excluded from
selection; after `update_request_status` moves one of its active
requests out of the `"active"` state (the release), a subsequent
assignment for a source in which the operator is configured with a
positive weight, active, can again select it for some draw. -/
theorem release_frees_capacity (db : DB) (sid : Nat) (op : Operator)
    (wrow : OperatorSourceWeight) (rq : Request) (st : String)
    (hnodupOp : (db.operators.map (fun o => o.id)).Nodup)
    (hnodupReq : (db.requests.map (fun r => r.id)).Nodup)
    (hopmem : op ∈ db.operators) (hact : op.is_active = true)
    (hw : wrow ∈ db.weights) (hwsid : wrow.source_id = sid)
    (hwop : wrow.operator_id = op.id)
    (hwpos : ∀ w ∈ db.weights, w.source_id = sid → 0 < w.weight)
    (hatcap : op.get_current_load db = op.max_load)
    (hrq : rq ∈ db.requests) (hrqop : rq.operator_id = some op.id)
    (hrqst : rq.status = "active") (hst : st ≠ "active") :
    (∀ w : Int, (op, w) ∉ getAvailableOperators db sid)
    ∧ ∃ db' req, updateRequestStatus db rq.id st = Except.ok (db', req)
        ∧ ∃ r : Int, assignOperatorToRequest db' sid r = Except.ok (some op) := by
  constructor
  · intro w hmem
    obtain ⟨_, _, _, hload⟩ :=
      (mem_getAvailableOperators db sid op w hnodupOp).1 hmem
    omega
  · have hfind : db.requests.find? (fun r => r.id == rq.id) = some rq :=
      find?_requests_of_nodup db.requests rq rq.id hnodupReq hrq rfl
    have hupd : updateRequestStatus db rq.id st
        = Except.ok ({ db with requests := updateFirstStatus db.requests rq.id st },
            { rq with status := st }) := by
      unfold updateRequestStatus
      rw [hfind]
    refine ⟨_, _, hupd, ?_⟩
    have hload' := get_current_load_after_update db op rq st hnodupReq hrq hrqop hrqst hst
    have hmem' : (op, wrow.weight) ∈ getAvailableOperators
        { db with requests := updateFirstStatus db.requests rq.id st } sid := by
      refine (mem_getAvailableOperators
        { db with requests := updateFirstStatus db.requests rq.id st }
        sid op wrow.weight hnodupOp).2
        ⟨⟨wrow, hw, hwsid, hwop, rfl⟩, hopmem, hact, ?_⟩
      omega
    cases hav : getAvailableOperators
        { db with requests := updateFirstStatus db.requests rq.id st } sid with
    | nil =>
      rw [hav] at hmem'
      exact absurd hmem' (List.not_mem_nil _)
    | cons c cs =>
      have hpos : ∀ p ∈ c :: cs, 0 < p.2 := by
        intro p hp
        rw [← hav] at hp
        rcases p with ⟨o, w⟩
        obtain ⟨⟨wr, hwr, hwrsid, _, hww⟩, _⟩ :=
          (mem_getAvailableOperators
            { db with requests := updateFirstStatus db.requests rq.id st }
            sid o w hnodupOp).1 hp
        rw [← hww]
        exact hwpos wr hwr hwrsid
      rw [hav] at hmem'
      obtain ⟨r, hr⟩ := exists_draw_pickFrom c cs hpos (op, wrow.weight) hmem'
      refine ⟨r, ?_⟩
      unfold assignOperatorToRequest
      rw [hav]
      show selectOperatorWeighted (c :: cs) r = Except.ok (some op)
      rw [selectOperatorWeighted_pos c cs r hpos, hr]

end MiniCRM

namespace MiniCRM

/-- A request occupying operator 1's single slot. -/
def reqA : Request :=
  { id := 1, lead_id := 1, source_id := 1, operator_id := some 1, status := "active",
    message := none }

/-- Operator 1 at capacity: one active request against `max_load = 1`. -/
def dbFull : DB :=
  { operators := [opA], sources := [srcS], leads := [leadL],
    weights := [wA1], requests := [reqA] }

/-- Witness for C7: operator 1 at capacity is excluded; closing its
request lets assignment select it again. -/
theorem release_frees_capacity_witness :
    (∀ w : Int, (opA, w) ∉ getAvailableOperators dbFull 1)
    ∧ ∃ db' req, updateRequestStatus dbFull reqA.id "closed" = Except.ok (db', req)
        ∧ ∃ r : Int, assignOperatorToRequest db' 1 r = Except.ok (some opA) :=
  release_frees_capacity dbFull 1 opA wA1 reqA "closed" (by decide) (by decide)
    (by decide) (by decide) (by decide) (by decide) (by decide) (by decide)
    (by decide) (by decide) (by decide) (by decide) (by decide)

/-! ### Configuring source weights -/

theorem insertWeights_error_of_bad (sid : Nat) :
    ∀ (db : DB) (l : List OperatorSourceWeightCreate),
      (∀ w ∈ l, ∃ op ∈ db.operators, op.id = w.operator_id) →
      (∃ w ∈ l, w.weight ≤ 0) →
      insertWeights db sid l = Except.error (400, "Weight must be a positive integer")
  | _, [], _, hbad => by simp at hbad
  | db, a :: t, hops, hbad => by
    obtain ⟨opa, hopa, hida⟩ := hops a (List.mem_cons_self _ _)
    cases hfind : db.operators.find? (fun o => o.id == a.operator_id) with
    | none =>
      exfalso
      have h := List.find?_eq_none.1 hfind opa hopa
      simp [hida] at h
    | some o =>
      simp only [insertWeights, hfind]
      by_cases hw : a.weight ≤ 0
      · rw [if_pos hw]
      · rw [if_neg hw]
        apply insertWeights_error_of_bad sid (addWeightRow db sid a) t
        · intro w hw'
          exact hops w (List.mem_cons_of_mem _ hw')
        · obtain ⟨w, hwmem, hwle⟩ := hbad
          rcases List.mem_cons.1 hwmem with rfl | hmem'
          · exact absurd hwle hw
          · exact ⟨w, hmem', hwle⟩

/-- C5: `configure_source_weights` submitted with any non-positive
weight (for an existing source whose submitted operators all exist) is
rejected with the 400 "Weight must be a positive integer" validation
error, and the committed weight configuration is left exactly as it was:
the pending delete-and-reinsert is discarded with the failed
transaction, so no reader ever observes a partial replacement. -/
theorem configure_rejects_nonpositive_weight (db : DB) (sid : Nat)
    (ws : List OperatorSourceWeightCreate)
    (hsrc : ∃ s ∈ db.sources, s.id = sid)
    (hops : ∀ w ∈ ws, ∃ op ∈ db.operators, op.id = w.operator_id)
    (hbad : ∃ w ∈ ws, w.weight ≤ 0) :
    configureSourceWeights db sid ws
      = Except.error (400, "Weight must be a positive integer")
    ∧ applyConfigure db sid ws = db := by
  cases hf : db.sources.find? (fun s => s.id == sid) with
  | none =>
    exfalso
    obtain ⟨s, hs, hseq⟩ := hsrc
    have h := List.find?_eq_none.1 hf s hs
    simp [hseq] at h
  | some s0 =>
    have herr : configureSourceWeights db sid ws
        = Except.error (400, "Weight must be a positive integer") := by
      unfold configureSourceWeights
      rw [hf]
      exact insertWeights_error_of_bad sid _ ws hops hbad
    refine ⟨herr, ?_⟩
    unfold applyConfigure
    rw [herr]

/-- Witness for C5: configuring source 1 with weight 0 for operator 1
errors and leaves the state unchanged. -/
theorem configure_rejects_nonpositive_weight_witness :
    configureSourceWeights dbCfg 1 [{ operator_id := 1, weight := 0 }]
      = Except.error (400, "Weight must be a positive integer")
    ∧ applyConfigure dbCfg 1 [{ operator_id := 1, weight := 0 }] = dbCfg :=
  configure_rejects_nonpositive_weight dbCfg 1 [{ operator_id := 1, weight := 0 }]
    (by decide) (by decide) (by decide)

theorem insertWeights_ok_pairKeys (sid : Nat) :
    ∀ (db : DB) (l : List OperatorSourceWeightCreate) (db' : DB),
      insertWeights db sid l = Except.ok db' →
      pairKeys db'.weights
        = pairKeys db.weights ++ l.map (fun w => (sid, w.operator_id))
  | db, [], db', h => by
    simp only [insertWeights, Except.ok.injEq] at h
    subst h
    simp
  | db, a :: t, db', h => by
    simp only [insertWeights] at h
    cases hfind : db.operators.find? (fun o => o.id == a.operator_id) with
    | none =>
      rw [hfind] at h
      cases h
    | some o =>
      rw [hfind] at h
      by_cases hw : a.weight ≤ 0
      · rw [if_pos hw] at h
        cases h
      · rw [if_neg hw] at h
        have ih := insertWeights_ok_pairKeys sid (addWeightRow db sid a) t db' h
        rw [ih]
        have hadd : pairKeys ((addWeightRow db sid a)).weights
            = pairKeys db.weights ++ [(sid, a.operator_id)] := by
          simp [addWeightRow, pairKeys]
        rw [hadd, List.append_assoc]
        simp

theorem applyConfigure_preserves_nodup (db : DB) (sid : Nat)
    (l : List OperatorSourceWeightCreate)
    (h0 : (pairKeys db.weights).Nodup)
    (hl : (l.map (fun w => w.operator_id)).Nodup) :
    (pairKeys (applyConfigure db sid l).weights).Nodup := by
  unfold applyConfigure
  cases hc : configureSourceWeights db sid l with
  | error e => exact h0
  | ok db' =>
    unfold configureSourceWeights at hc
    cases hf : db.sources.find? (fun s => s.id == sid) with
    | none =>
      rw [hf] at hc
      cases hc
    | some s0 =>
      rw [hf] at hc
      have hpairs := insertWeights_ok_pairKeys sid _ l db' hc
      rw [hpairs]
      refine List.Nodup.append ?_ ?_ ?_
      · exact h0.sublist (List.Sublist.map _ (List.filter_sublist _))
      · have hmm : (l.map (fun w => (sid, w.operator_id)))
            = (l.map (fun w => w.operator_id)).map (fun k => (sid, k)) := by
          simp [List.map_map]
        rw [hmm]
        exact hl.map (fun a b h => congrArg Prod.snd h)
      · intro x hx1 hx2
        simp only [pairKeys, List.mem_map, List.mem_filter] at hx1 hx2
        obtain ⟨w1, ⟨_, hns⟩, rfl⟩ := hx1
        obtain ⟨w2, _, hx⟩ := hx2
        have hfst : sid = w1.source_id := congrArg Prod.fst hx
        simp [← hfst] at hns

/-- C8 amended: the stored weight table keeps at most one row per
`(source_id, operator_id)` pair across any sequence of
`configure_source_weights` calls provided each submitted list names each
operator at most once; the endpoint itself does not deduplicate (and the
table has no unique constraint), so a single call repeating an operator
would store duplicate rows. -/
theorem configure_pair_unique (db : DB)
    (calls : List (Nat × List OperatorSourceWeightCreate))
    (h0 : (pairKeys db.weights).Nodup)
    (hcalls : ∀ c ∈ calls, (c.2.map (fun w => w.operator_id)).Nodup) :
    (pairKeys ((calls.foldl (fun d c => applyConfigure d c.1 c.2) db).weights)).Nodup := by
  induction calls generalizing db with
  | nil => exact h0
  | cons c t ih =>
    simp only [List.foldl_cons]
    exact ih (applyConfigure db c.1 c.2)
      (applyConfigure_preserves_nodup db c.1 c.2 h0 (hcalls c (List.mem_cons_self _ _)))
      (fun d hd => hcalls d (List.mem_cons_of_mem _ hd))

/-- Witness for C8's amended statement: one duplicate-free call. -/
theorem configure_pair_unique_witness :
    (pairKeys ((([((1 : Nat),
        [({ operator_id := 1, weight := 1 } : OperatorSourceWeightCreate)])]).foldl
      (fun d c => applyConfigure d c.1 c.2) dbCfg).weights)).Nodup :=
  configure_pair_unique dbCfg [(1, [{ operator_id := 1, weight := 1 }])]
    (by decide) (by decide)

end MiniCRM
